import Mathlib

/-!
Verification of the dense-matrix library in linalg.c.

The C code is shallowly embedded: the struct Matrix (size_t nrows, size_t
ncols, double** vals) becomes a Lean structure whose storage field is
`Option (List (List ℚ))`, with `none` modelling a NULL vals pointer.
C double values are modelled as rationals; the only operation that leaves
the rationals is the final square root of the L2 norm, modelled with
`Real.sqrt`.  A `Matrix*` handle that may be NULL is `Option Matrix`.
The C global errno is threaded explicitly: every function that the C
source allows to read or write errno takes the current errno value and
returns the new one.  Loop indices (C int loop counters compared against
size_t bounds) are natural numbers.
-/

namespace Linalg

/-- Dense matrix record mirroring the C struct: nrows, ncols and the
row-pointer storage double** vals, with `none` for a NULL vals pointer. -/
structure Matrix where
  nrows : Nat
  ncols : Nat
  vals : Option (List (List ℚ))
deriving DecidableEq

/-- Numeric value of the POSIX EINVAL error code stored into errno. -/
def EINVAL : Nat := 22

/-- Array access vals[i][j] on row-pointer storage.  An out-of-range read
defaults to 0; in the C source such a read would be undefined behaviour,
and it is only reachable from matrix states the library never constructs
(every in-contract call keeps indices inside the allocated extents). -/
def idx (v : List (List ℚ)) (i j : Nat) : ℚ := (v.getD i []).getD j 0

/-- Function init_Matrix(M, nrows, ncols) of linalg.c, as the state of the
pointed-to struct after the call on a non-NULL M: it stores nrows and
ncols, sets vals to NULL when either dimension is <= 0 (always meaning
== 0 for the unsigned size_t arguments), and otherwise allocates nrows
rows of ncols zero-initialised (calloc) values.  The `M == NULL` early
return of the C function is not modelled here because the only caller in
the library, new_Matrix, always passes a freshly allocated non-NULL M
whose indeterminate fields are all overwritten. -/
def init_Matrix (nrows ncols : Nat) : Matrix :=
  if nrows ≤ 0 ∨ ncols ≤ 0 then ⟨nrows, ncols, none⟩
  else ⟨nrows, ncols, some (List.replicate nrows (List.replicate ncols 0))⟩

/-- Function new_Matrix(nrows, ncols) of linalg.c: mallocs a Matrix struct
and hands it to init_Matrix (allocation is assumed to succeed). -/
def new_Matrix (nrows ncols : Nat) : Matrix :=
  init_Matrix nrows ncols

/-- Function deinit_Matrix(M) of linalg.c, as the state of the handle after
the call: nothing happens when M is NULL or M->vals is NULL; otherwise the
storage is freed and nrows, ncols, vals are reset to 0, 0, NULL. -/
def deinit_Matrix (M : Option Matrix) : Option Matrix :=
  match M with
  | none => none
  | some m =>
    match m.vals with
    | none => some m
    | some _ => some ⟨0, 0, none⟩

/-- Function delete_Matrix(M) of linalg.c: a no-op on a NULL handle;
otherwise it deinitialises M and frees the struct itself, after which the
handle no longer refers to a matrix (modelled as `none`). -/
def delete_Matrix (M : Option Matrix) : Option Matrix :=
  match M with
  | none => none
  | some _ => none

/-- Function Matrix_get(M, i, j) of linalg.c, threaded with errno: on an
invalid argument (NULL M, NULL vals, or an index at or beyond the
dimensions; the C checks i < 0 and j < 0 are vacuous for unsigned size_t
indices and are kept literally) it sets errno to EINVAL and returns 0.0,
otherwise it returns vals[i][j] leaving errno untouched. -/
def Matrix_get (M : Option Matrix) (i j : Nat) (errno : Nat) : ℚ × Nat :=
  match M with
  | none => (0, EINVAL)
  | some m =>
    match m.vals with
    | none => (0, EINVAL)
    | some v =>
      if i < 0 ∨ j < 0 ∨ i ≥ m.nrows ∨ j ≥ m.ncols then (0, EINVAL)
      else (idx v i j, errno)

/-- Function Matrix_put(M, i, j, val) of linalg.c, threaded with errno
(which the C function never touches): the result is the new state of the
handle, the int return value (1 on an invalid argument, 0 after a
successful store of val into vals[i][j]) and the unchanged errno. -/
def Matrix_put (M : Option Matrix) (i j : Nat) (val : ℚ) (errno : Nat) :
    Option Matrix × Nat × Nat :=
  match M with
  | none => (none, 1, errno)
  | some m =>
    match m.vals with
    | none => (some m, 1, errno)
    | some v =>
      if i < 0 ∨ j < 0 ∨ i ≥ m.nrows ∨ j ≥ m.ncols then (some m, 1, errno)
      else (some ⟨m.nrows, m.ncols, some (v.set i ((v.getD i []).set j val))⟩, 0, errno)

/-- Function Matrix_add(A, B) of linalg.c: NULL when an operand or its
storage is NULL or the dimensions disagree; otherwise a matrix fresh from
new_Matrix(A->nrows, B->ncols) whose every entry ret->vals[i][j] the two
nested loops (i < ret->nrows, j < ret->ncols) overwrite with
A->vals[i][j] + B->vals[i][j].  The post-loop storage is expressed with
`Option.map`: when new_Matrix produced NULL storage (a zero dimension)
the loop bodies never execute, and otherwise every entry is written. -/
def Matrix_add (A B : Option Matrix) : Option Matrix :=
  match A, B with
  | none, _ => none
  | _, none => none
  | some a, some b =>
    match a.vals, b.vals with
    | none, _ => none
    | _, none => none
    | some av, some bv =>
      if ¬(a.nrows = b.nrows ∧ b.ncols = a.ncols) then none
      else
        some ⟨a.nrows, b.ncols,
          (new_Matrix a.nrows b.ncols).vals.map fun _ =>
            (List.range a.nrows).map fun i =>
              (List.range b.ncols).map fun j => idx av i j + idx bv i j⟩

/-- Function Matrix_mult(A, B) of linalg.c: NULL when an operand or its
storage is NULL or the shipped shape constraint
(A->nrows == B->ncols && A->ncols == B->nrows) fails; otherwise a matrix
fresh from new_Matrix(A->nrows, B->ncols) where the triple nested loops
accumulate, into each zero-initialised entry ret->vals[i][j], the sum over
k < A->ncols of A->vals[i][k] * B->vals[k][j].  As in Matrix_add the
post-loop storage is expressed with `Option.map`. -/
def Matrix_mult (A B : Option Matrix) : Option Matrix :=
  match A, B with
  | none, _ => none
  | _, none => none
  | some a, some b =>
    match a.vals, b.vals with
    | none, _ => none
    | _, none => none
    | some av, some bv =>
      if ¬(a.nrows = b.ncols ∧ a.ncols = b.nrows) then none
      else
        some ⟨a.nrows, b.ncols,
          (new_Matrix a.nrows b.ncols).vals.map fun _ =>
            (List.range a.nrows).map fun i =>
              (List.range b.ncols).map fun j =>
                ((List.range a.ncols).map fun k => idx av i k * idx bv k j).sum⟩

/-- Function Matrix_l1(A) of linalg.c, threaded with errno: EINVAL and 0.0
on a NULL A, NULL storage or a non-positive dimension; otherwise the two
nested loops accumulate, for every entry, toAdd = A->vals[i][j] negated
(multiplied by -1) when it is negative, and errno is left untouched. -/
def Matrix_l1 (A : Option Matrix) (errno : Nat) : ℚ × Nat :=
  match A with
  | none => (0, EINVAL)
  | some a =>
    match a.vals with
    | none => (0, EINVAL)
    | some av =>
      if a.nrows ≤ 0 ∨ a.ncols ≤ 0 then (0, EINVAL)
      else
        (((List.range a.nrows).map fun i =>
            ((List.range a.ncols).map fun j =>
              let toAdd := idx av i j
              if toAdd < 0 then toAdd * -1 else toAdd).sum).sum, errno)

/-- Accumulator of Matrix_l2(A) of linalg.c for a non-NULL A: the two
nested loops (i < A->nrows, j < A->ncols) sum pow(A->vals[i][j], 2).
A->vals is only dereferenced when both loops run, so a NULL-storage
matrix with both dimensions zero (the only NULL-storage shape the
library constructs that reaches this code) contributes nothing; the
`Option.getD` default covers the C-undefined dereference that a
NULL-storage state with two positive dimensions would perform. -/
def Matrix_l2sum (a : Matrix) : ℚ :=
  ((List.range a.nrows).map fun i =>
    ((List.range a.ncols).map fun j =>
      (idx (a.vals.getD []) i j) ^ 2).sum).sum

/-- Function Matrix_l2(A) of linalg.c, threaded with errno (which the C
function never mentions): 0.0 when A is NULL, and otherwise the square
root of the accumulated sum of squares; errno always passes through. -/
noncomputable def Matrix_l2 (A : Option Matrix) (errno : Nat) : ℝ × Nat :=
  match A with
  | none => (0, errno)
  | some a => (Real.sqrt ((Matrix_l2sum a : ℚ) : ℝ), errno)

/-! Helper lemmas about the embedded storage representation. -/

lemma new_Matrix_def (r c : Nat) :
    new_Matrix r c = if r ≤ 0 ∨ c ≤ 0 then ⟨r, c, none⟩
      else ⟨r, c, some (List.replicate r (List.replicate c 0))⟩ := rfl

lemma new_Matrix_nrows (r c : Nat) : (new_Matrix r c).nrows = r := by
  rw [new_Matrix_def]; split <;> rfl

lemma new_Matrix_ncols (r c : Nat) : (new_Matrix r c).ncols = c := by
  rw [new_Matrix_def]; split <;> rfl

lemma new_Matrix_vals_pos (r c : Nat) (hr : 0 < r) (hc : 0 < c) :
    (new_Matrix r c).vals = some (List.replicate r (List.replicate c 0)) := by
  rw [new_Matrix_def, if_neg (by omega)]

lemma new_Matrix_vals_zero (r c : Nat) (h : r = 0 ∨ c = 0) :
    (new_Matrix r c).vals = none := by
  rw [new_Matrix_def, if_pos (by omega)]

lemma idx_zero_matrix (r c i j : Nat) :
    idx (List.replicate r (List.replicate c 0)) i j = 0 := by
  unfold idx
  have hrow : (List.replicate r (List.replicate c (0:ℚ))).getD i [] = List.replicate c 0 ∨
      (List.replicate r (List.replicate c (0:ℚ))).getD i [] = [] := by
    rcases Nat.lt_or_ge i r with h | h
    · left
      rw [List.getD_eq_getElem _ _ (by simpa using h), List.getElem_replicate]
    · right
      rw [List.getD_eq_default _ _ (by simpa using h)]
  rcases hrow with h | h <;> rw [h]
  · rcases Nat.lt_or_ge j c with h2 | h2
    · rw [List.getD_eq_getElem _ _ (by simpa using h2), List.getElem_replicate]
    · rw [List.getD_eq_default _ _ (by simpa using h2)]
  · simp

lemma getD_range_map {α : Type} (f : Nat → α) (d : α) {n i : Nat} (h : i < n) :
    ((List.range n).map f).getD i d = f i := by
  rw [List.getD_eq_getElem _ _ (by simpa using h)]
  simp

lemma sum_range_map_getD {α : Type} (l : List α) (d : α) (g : α → ℚ) :
    ((List.range l.length).map fun i => g (l.getD i d)).sum = (l.map g).sum := by
  induction l with
  | nil => simp
  | cons x xs ih =>
    rw [List.length_cons, List.range_succ_eq_map, List.map_cons, List.map_map, List.sum_cons]
    simp only [Function.comp_def, Nat.succ_eq_add_one, List.getD_cons_succ, List.getD_cons_zero]
    rw [ih, List.map_cons, List.sum_cons]

lemma idx_range_table (g : Nat → Nat → ℚ) {n c i j : Nat} (hi : i < n) (hj : j < c) :
    idx ((List.range n).map fun i2 => (List.range c).map fun j2 => g i2 j2) i j = g i j := by
  unfold idx
  rw [getD_range_map _ _ hi, getD_range_map _ _ hj]

lemma branch_abs (x : ℚ) : (if x < 0 then x * -1 else x) = |x| := by
  rcases lt_or_le x 0 with h | h
  · rw [if_pos h, abs_of_neg h]
    ring
  · rw [if_neg (not_lt.mpr h), abs_of_nonneg h]

lemma double_range_sum (av : List (List ℚ)) (g : ℚ → ℚ) (nr nc : Nat)
    (hlen : av.length = nr) (hrows : ∀ row ∈ av, row.length = nc) :
    ((List.range nr).map fun i => ((List.range nc).map fun j => g (idx av i j)).sum).sum
      = (av.map fun row => (row.map g).sum).sum := by
  subst hlen
  unfold idx
  rw [sum_range_map_getD av [] fun row => ((List.range nc).map fun j => g (row.getD j 0)).sum]
  apply congrArg List.sum
  apply List.map_congr_left
  intro row hrow
  have hlenrow : row.length = nc := hrows row hrow
  subst hlenrow
  exact sum_range_map_getD row 0 g

lemma getD_set_self {α : Type} (l : List α) (d : α) (a : α) (k : Nat) (hk : k < l.length) :
    (l.set k a).getD k d = a := by
  rw [List.getD_eq_getElem _ _ (by rw [List.length_set]; exact hk)]
  exact List.getElem_set_self _

lemma getD_set_ne {α : Type} (l : List α) (d : α) (a : α) (k n : Nat) (hne : n ≠ k) :
    (l.set k a).getD n d = l.getD n d := by
  rcases Nat.lt_or_ge n l.length with hlt | hge
  · rw [List.getD_eq_getElem _ _ (by rw [List.length_set]; exact hlt),
      List.getD_eq_getElem _ _ hlt]
    exact List.getElem_set_ne (by omega) _
  · rw [List.getD_eq_default _ _ (by rw [List.length_set]; exact hge),
      List.getD_eq_default _ _ hge]

/-- C3: for every r > 0 and c > 0, Construct(r, c) (new_Matrix / init_Matrix)
yields a matrix with backing storage of r rows of c entries each, and every
in-bounds Matrix_get on it returns 0.0 with no error signalled: errno passes
through unchanged. -/
theorem construct_zero_get (r c i j e : Nat) (hr : 0 < r) (hc : 0 < c)
    (hi : i < r) (hj : j < c) :
    (∃ vv, (new_Matrix r c).vals = some vv ∧ vv.length = r ∧
      ∀ row ∈ vv, row.length = c) ∧
    (new_Matrix r c).nrows = r ∧ (new_Matrix r c).ncols = c ∧
    Matrix_get (some (new_Matrix r c)) i j e = (0, e) := by
  refine ⟨⟨List.replicate r (List.replicate c 0), new_Matrix_vals_pos r c hr hc, by simp,
      fun row hrow => by rw [List.eq_of_mem_replicate hrow]; simp⟩,
    new_Matrix_nrows r c, new_Matrix_ncols r c, ?_⟩
  simp only [Matrix_get, new_Matrix_vals_pos r c hr hc, new_Matrix_nrows, new_Matrix_ncols]
  rw [if_neg (by omega), idx_zero_matrix]

/-- Witness for construct_zero_get at r = 2, c = 3, (i, j) = (1, 2), errno 7. -/
theorem construct_zero_get_witness :
    (∃ vv, (new_Matrix 2 3).vals = some vv ∧ vv.length = 2 ∧
      ∀ row ∈ vv, row.length = 3) ∧
    (new_Matrix 2 3).nrows = 2 ∧ (new_Matrix 2 3).ncols = 3 ∧
    Matrix_get (some (new_Matrix 2 3)) 1 2 7 = (0, 7) :=
  construct_zero_get 2 3 1 2 7 (by decide) (by decide) (by decide) (by decide)

/-- C8: for r = 0 or c = 0 (the only ways a size_t dimension can be <= 0),
Construct(r, c) yields a matrix with no backing storage that retains the
requested nrows and ncols, and every Matrix_get on it returns 0.0 and sets
errno to EINVAL, regardless of the indices. -/
theorem construct_empty_get (r c : Nat) (h : r = 0 ∨ c = 0) :
    (new_Matrix r c).vals = none ∧ (new_Matrix r c).nrows = r ∧
    (new_Matrix r c).ncols = c ∧
    ∀ i j e, Matrix_get (some (new_Matrix r c)) i j e = (0, EINVAL) := by
  refine ⟨new_Matrix_vals_zero r c h, new_Matrix_nrows r c, new_Matrix_ncols r c, ?_⟩
  intro i j e
  simp [Matrix_get, new_Matrix_vals_zero r c h]

/-- Witness for construct_empty_get at r = 0, c = 5. -/
theorem construct_empty_get_witness :
    (new_Matrix 0 5).vals = none ∧ (new_Matrix 0 5).nrows = 0 ∧
    (new_Matrix 0 5).ncols = 5 ∧
    ∀ i j e, Matrix_get (some (new_Matrix 0 5)) i j e = (0, EINVAL) :=
  construct_empty_get 0 5 (Or.inl rfl)

/-- C9: Release (deinit_Matrix) is an idempotent teardown: it is a no-op on
a null handle and on a matrix with no backing storage; on a matrix with
storage it resets nrows, ncols and vals to 0, 0, NULL, so a second Release
changes nothing (deinit_Matrix ∘ deinit_Matrix = deinit_Matrix on every
handle); and Destroy (delete_Matrix) on a null handle is a no-op. -/
theorem release_destroy_idempotent :
    deinit_Matrix none = none ∧
    (∀ m : Matrix, m.vals = none → deinit_Matrix (some m) = some m) ∧
    (∀ m : Matrix, ∀ vv, m.vals = some vv →
      deinit_Matrix (some m) = some ⟨0, 0, none⟩) ∧
    (∀ M : Option Matrix, deinit_Matrix (deinit_Matrix M) = deinit_Matrix M) ∧
    delete_Matrix none = none := by
  refine ⟨rfl, ?_, ?_, ?_, rfl⟩
  · intro m hm
    simp [deinit_Matrix, hm]
  · intro m vv hm
    simp [deinit_Matrix, hm]
  · intro M
    cases M with
    | none => rfl
    | some m =>
      cases hm : m.vals with
      | none => simp [deinit_Matrix, hm]
      | some vv => simp [deinit_Matrix, hm]

/-- Witness for release_destroy_idempotent on a 2x2 identity matrix. -/
theorem release_destroy_idempotent_witness :
    deinit_Matrix (some ⟨2, 2, some [[1, 0], [0, 1]]⟩) = some ⟨0, 0, none⟩ ∧
    deinit_Matrix (deinit_Matrix (some ⟨2, 2, some [[1, 0], [0, 1]]⟩)) =
      deinit_Matrix (some ⟨2, 2, some [[1, 0], [0, 1]]⟩) :=
  ⟨release_destroy_idempotent.2.2.1 ⟨2, 2, some [[1, 0], [0, 1]]⟩ [[1, 0], [0, 1]] rfl,
   release_destroy_idempotent.2.2.2.1 (some ⟨2, 2, some [[1, 0], [0, 1]]⟩)⟩

/-- C5: when M is null, has no backing storage, or i >= nrows or j >= ncols,
Matrix_get returns 0.0 and sets errno to EINVAL, and Matrix_put under the
same conditions returns the failure indicator 1 leaving the matrix state
and errno untouched; otherwise Matrix_put stores the value into row i,
column j of the storage and returns the success indicator 0. -/
theorem get_put_invalid (M : Option Matrix) (i j : Nat) (v : ℚ) (e : Nat) :
    ((M = none ∨ ∃ m, M = some m ∧ (m.vals = none ∨ i ≥ m.nrows ∨ j ≥ m.ncols)) →
      Matrix_get M i j e = (0, EINVAL) ∧ Matrix_put M i j v e = (M, 1, e)) ∧
    (∀ m vv, M = some m → m.vals = some vv → i < m.nrows → j < m.ncols →
      Matrix_put M i j v e =
        (some ⟨m.nrows, m.ncols, some (vv.set i ((vv.getD i []).set j v))⟩, 0, e)) := by
  constructor
  · intro h
    rcases h with rfl | ⟨m, rfl, hm⟩
    · exact ⟨rfl, rfl⟩
    · cases hv : m.vals with
      | none => simp [Matrix_get, Matrix_put, hv]
      | some vv =>
        have hcond : i < 0 ∨ j < 0 ∨ i ≥ m.nrows ∨ j ≥ m.ncols := by
          rcases hm with hm | hm | hm
          · rw [hm] at hv; cases hv
          · exact Or.inr (Or.inr (Or.inl hm))
          · exact Or.inr (Or.inr (Or.inr hm))
        constructor
        · simp only [Matrix_get, hv]
          rw [if_pos hcond]
        · simp only [Matrix_put, hv]
          rw [if_pos hcond]
  · intro m vv hM hv hi hj
    subst hM
    simp only [Matrix_put, hv]
    rw [if_neg (by omega)]

/-- Witness for get_put_invalid: an out-of-bounds access (i = 2 on a 2x2
matrix) fails through both accessors, and an in-bounds put stores. -/
theorem get_put_invalid_witness :
    Matrix_get (some ⟨2, 2, some [[1, 2], [3, 4]]⟩) 2 0 5 = (0, EINVAL) ∧
    Matrix_put (some ⟨2, 2, some [[1, 2], [3, 4]]⟩) 2 0 9 5 =
      (some ⟨2, 2, some [[1, 2], [3, 4]]⟩, 1, 5) :=
  (get_put_invalid (some ⟨2, 2, some [[1, 2], [3, 4]]⟩) 2 0 9 5).1
    (Or.inr ⟨⟨2, 2, some [[1, 2], [3, 4]]⟩, rfl, Or.inr (Or.inl (by decide))⟩)

/-- C10: errno discipline of the out-of-band error channel: Matrix_put
returns errno unchanged on every path, signalling failure only through its
int return value; Matrix_get and Matrix_l1 return errno unchanged on their
success paths (even a pre-existing EINVAL survives a successful call, which
is why a caller must reset errno before the call to use the signal) and the
only other value they ever leave in errno is EINVAL. -/
theorem errno_discipline :
    (∀ (M : Option Matrix) i j v e, (Matrix_put M i j v e).2.2 = e) ∧
    (∀ (m : Matrix) vv i j e, m.vals = some vv → i < m.nrows → j < m.ncols →
      (Matrix_get (some m) i j e).2 = e) ∧
    (∀ (M : Option Matrix) i j e,
      (Matrix_get M i j e).2 = e ∨ (Matrix_get M i j e).2 = EINVAL) ∧
    (∀ (a : Matrix) av e, a.vals = some av → 0 < a.nrows → 0 < a.ncols →
      (Matrix_l1 (some a) e).2 = e) ∧
    (∀ (A : Option Matrix) e, (Matrix_l1 A e).2 = e ∨ (Matrix_l1 A e).2 = EINVAL) := by
  refine ⟨?_, ?_, ?_, ?_, ?_⟩
  · intro M i j v e
    cases M with
    | none => rfl
    | some m =>
      cases hv : m.vals with
      | none => simp [Matrix_put, hv]
      | some vv =>
        simp only [Matrix_put, hv]
        split <;> rfl
  · intro m vv i j e hv hi hj
    simp only [Matrix_get, hv]
    rw [if_neg (by omega)]
  · intro M i j e
    cases M with
    | none => right; rfl
    | some m =>
      cases hv : m.vals with
      | none => right; simp [Matrix_get, hv]
      | some vv =>
        simp only [Matrix_get, hv]
        split
        · right; rfl
        · left; rfl
  · intro a av e hv hr hc
    simp only [Matrix_l1, hv]
    rw [if_neg (by omega)]
  · intro A e
    cases A with
    | none => right; rfl
    | some a =>
      cases hv : a.vals with
      | none => right; simp [Matrix_l1, hv]
      | some av =>
        simp only [Matrix_l1, hv]
        split
        · right; rfl
        · left; rfl

/-- Witness for errno_discipline: put on a null handle keeps errno 4, and a
successful get and l1 keep pre-existing errno values (including 22, the
EINVAL value itself) untouched. -/
theorem errno_discipline_witness :
    (Matrix_put none 0 0 1 4).2.2 = 4 ∧
    (Matrix_get (some ⟨1, 1, some [[0]]⟩) 0 0 22).2 = 22 ∧
    (Matrix_l1 (some ⟨1, 1, some [[0]]⟩) 4).2 = 4 :=
  ⟨errno_discipline.1 none 0 0 1 4,
   errno_discipline.2.1 ⟨1, 1, some [[0]]⟩ [[0]] 0 0 22 rfl (by decide) (by decide),
   errno_discipline.2.2.2.1 ⟨1, 1, some [[0]]⟩ [[0]] 4 rfl (by decide) (by decide)⟩

/-- C4: put-then-get round trip: on a matrix with backing storage of the
recorded extents, an in-bounds Matrix_put returns the success indicator 0,
a subsequent Matrix_get at the same indices returns the stored value, and
every other index pair reads exactly as it did before the put. -/
theorem put_get_roundtrip (m : Matrix) (vv : List (List ℚ)) (i j : Nat) (v : ℚ)
    (e e2 : Nat) (hv : m.vals = some vv) (hlen : vv.length = m.nrows)
    (hrows : ∀ row ∈ vv, row.length = m.ncols) (hi : i < m.nrows) (hj : j < m.ncols) :
    (Matrix_put (some m) i j v e).2.1 = 0 ∧
    Matrix_get (Matrix_put (some m) i j v e).1 i j e2 = (v, e2) ∧
    ∀ i2 j2, ¬(i2 = i ∧ j2 = j) →
      Matrix_get (Matrix_put (some m) i j v e).1 i2 j2 e2 =
        Matrix_get (some m) i2 j2 e2 := by
  have hivv : i < vv.length := by omega
  have hrowlen : (vv.getD i []).length = m.ncols := by
    rw [List.getD_eq_getElem _ _ hivv]
    exact hrows _ (List.getElem_mem _)
  have hput : Matrix_put (some m) i j v e =
      (some ⟨m.nrows, m.ncols, some (vv.set i ((vv.getD i []).set j v))⟩, 0, e) := by
    simp only [Matrix_put, hv]
    rw [if_neg (by omega)]
  refine ⟨by rw [hput], ?_, ?_⟩
  · rw [hput]
    simp only [Matrix_get]
    rw [if_neg (by omega)]
    unfold idx
    rw [getD_set_self vv [] _ i hivv, getD_set_self _ 0 v j (by omega)]
  · intro i2 j2 hne
    rw [hput]
    simp only [Matrix_get, hv]
    by_cases hin : i2 < m.nrows ∧ j2 < m.ncols
    · rw [if_neg (by omega), if_neg (by omega)]
      unfold idx
      rcases eq_or_ne i2 i with rfl | hne_i
      · have hj2 : j2 ≠ j := fun h => hne ⟨rfl, h⟩
        rw [getD_set_self vv [] _ i2 hivv, getD_set_ne _ 0 v j j2 hj2]
      · rw [getD_set_ne vv [] _ i i2 hne_i]
    · rw [if_pos (by omega), if_pos (by omega)]

/-- Witness for put_get_roundtrip: storing 9 at (0, 1) of [[1, 2], [3, 4]]
succeeds, reads back as 9, and leaves the other three entries unchanged. -/
theorem put_get_roundtrip_witness :
    (Matrix_put (some ⟨2, 2, some [[1, 2], [3, 4]]⟩) 0 1 9 3).2.1 = 0 ∧
    Matrix_get (Matrix_put (some ⟨2, 2, some [[1, 2], [3, 4]]⟩) 0 1 9 3).1 0 1 4 = (9, 4) ∧
    ∀ i2 j2, ¬(i2 = 0 ∧ j2 = 1) →
      Matrix_get (Matrix_put (some ⟨2, 2, some [[1, 2], [3, 4]]⟩) 0 1 9 3).1 i2 j2 4 =
        Matrix_get (some ⟨2, 2, some [[1, 2], [3, 4]]⟩) i2 j2 4 :=
  put_get_roundtrip ⟨2, 2, some [[1, 2], [3, 4]]⟩ [[1, 2], [3, 4]] 0 1 9 3 4 rfl rfl
    (by decide) (by decide) (by decide)

/-- C2: Matrix_add returns NULL exactly when an operand is null, an operand
has no backing storage, or the dimensions disagree; otherwise it returns a
fresh matrix of the shared dimensions whose every entry, observed through
Matrix_get, is the sum of the corresponding entries of the operands (the
operands themselves are values of the functional embedding and are left
untouched by construction). -/
theorem matrix_add_spec (A B : Option Matrix) :
    (Matrix_add A B = none ↔
      A = none ∨ B = none ∨ (∃ a, A = some a ∧ a.vals = none) ∨
      (∃ b, B = some b ∧ b.vals = none) ∨
      (∃ a b, A = some a ∧ B = some b ∧ (a.nrows ≠ b.nrows ∨ a.ncols ≠ b.ncols))) ∧
    (∀ a b av bv, A = some a → B = some b → a.vals = some av → b.vals = some bv →
      a.nrows = b.nrows → a.ncols = b.ncols →
      ∃ r, Matrix_add A B = some r ∧ r.nrows = a.nrows ∧ r.ncols = a.ncols ∧
        ∀ i j e, i < r.nrows → j < r.ncols →
          Matrix_get (some r) i j e =
            ((Matrix_get A i j e).1 + (Matrix_get B i j e).1, e)) := by
  constructor
  · cases A with
    | none => simp [Matrix_add]
    | some a =>
      cases B with
      | none => simp [Matrix_add]
      | some b =>
        cases ha : a.vals with
        | none => simp [Matrix_add, ha]
        | some av =>
          cases hb : b.vals with
          | none => simp [Matrix_add, ha, hb]
          | some bv =>
            simp only [Matrix_add, ha, hb]
            split
            · rename_i hcond
              constructor
              · intro _
                exact Or.inr (Or.inr (Or.inr (Or.inr ⟨a, b, rfl, rfl, by omega⟩)))
              · intro _
                rfl
            · rename_i hcond
              constructor
              · intro h
                exact Option.noConfusion h
              · intro h
                exfalso
                rcases h with h | h | ⟨a2, ha2, hv2⟩ | ⟨b2, hb2, hv2⟩ | ⟨a2, b2, ha2, hb2, hd⟩
                · exact Option.noConfusion h
                · exact Option.noConfusion h
                · cases ha2
                  rw [hv2] at ha
                  exact Option.noConfusion ha
                · cases hb2
                  rw [hv2] at hb
                  exact Option.noConfusion hb
                · cases ha2
                  cases hb2
                  omega
  · intro a b av bv hA hB ha hb h1 h2
    subst hA
    subst hB
    have hadd : Matrix_add (some a) (some b) =
        some ⟨a.nrows, b.ncols,
          (new_Matrix a.nrows b.ncols).vals.map fun _ =>
            (List.range a.nrows).map fun i =>
              (List.range b.ncols).map fun j => idx av i j + idx bv i j⟩ := by
      simp only [Matrix_add, ha, hb]
      rw [if_neg (by omega)]
    refine ⟨_, hadd, rfl, h2.symm, ?_⟩
    intro i j e hi hj
    have hi2 : i < a.nrows := hi
    have hj2 : j < b.ncols := hj
    have hvals : ((new_Matrix a.nrows b.ncols).vals.map fun _ =>
        (List.range a.nrows).map fun i2 =>
          (List.range b.ncols).map fun j2 => idx av i2 j2 + idx bv i2 j2) =
        some ((List.range a.nrows).map fun i2 =>
          (List.range b.ncols).map fun j2 => idx av i2 j2 + idx bv i2 j2) := by
      rw [new_Matrix_vals_pos _ _ (by omega) (by omega)]
      rfl
    simp only [Matrix_get, hvals, ha, hb]
    rw [if_neg (by omega), if_neg (by omega), if_neg (by omega)]
    rw [idx_range_table _ hi2 hj2]

/-- Witness for matrix_add_spec on two stored 2x2 matrices. -/
theorem matrix_add_spec_witness :
    ∃ r, Matrix_add (some ⟨2, 2, some [[1, 2], [3, 4]]⟩)
        (some ⟨2, 2, some [[10, 20], [30, 40]]⟩) = some r ∧
      r.nrows = 2 ∧ r.ncols = 2 ∧
      ∀ i j e, i < r.nrows → j < r.ncols →
        Matrix_get (some r) i j e =
          ((Matrix_get (some ⟨2, 2, some [[1, 2], [3, 4]]⟩) i j e).1 +
            (Matrix_get (some ⟨2, 2, some [[10, 20], [30, 40]]⟩) i j e).1, e) :=
  (matrix_add_spec (some ⟨2, 2, some [[1, 2], [3, 4]]⟩)
    (some ⟨2, 2, some [[10, 20], [30, 40]]⟩)).2 _ _
    [[1, 2], [3, 4]] [[10, 20], [30, 40]] rfl rfl rfl rfl rfl rfl

/-- C1: for non-null operands with backing storage, Matrix_mult returns
NULL exactly when the shipped shape constraint
(A.nrows == B.ncols && A.ncols == B.nrows) fails; when it holds the result
is a fresh matrix of dimensions A.nrows x B.ncols whose entry (i, j),
observed through Matrix_get, is the sum over k < A.ncols of
A[i][k] * B[k][j]; the witness instantiates the 2x2-times-identity case. -/
theorem matrix_mult_spec (A B : Option Matrix) (a b : Matrix)
    (av bv : List (List ℚ)) (hA : A = some a) (hB : B = some b)
    (ha : a.vals = some av) (hb : b.vals = some bv) :
    (Matrix_mult A B = none ↔ ¬(a.nrows = b.ncols ∧ a.ncols = b.nrows)) ∧
    (a.nrows = b.ncols → a.ncols = b.nrows →
      ∃ r, Matrix_mult A B = some r ∧ r.nrows = a.nrows ∧ r.ncols = b.ncols ∧
        ∀ i j e, i < r.nrows → j < r.ncols →
          Matrix_get (some r) i j e =
            (((List.range a.ncols).map fun k =>
              (Matrix_get A i k e).1 * (Matrix_get B k j e).1).sum, e)) := by
  subst hA
  subst hB
  constructor
  · simp only [Matrix_mult, ha, hb]
    split
    · rename_i hcond
      exact iff_of_true rfl hcond
    · rename_i hcond
      exact iff_of_false (fun h => Option.noConfusion h) hcond
  · intro h1 h2
    have hmult : Matrix_mult (some a) (some b) =
        some ⟨a.nrows, b.ncols,
          (new_Matrix a.nrows b.ncols).vals.map fun _ =>
            (List.range a.nrows).map fun i =>
              (List.range b.ncols).map fun j =>
                ((List.range a.ncols).map fun k => idx av i k * idx bv k j).sum⟩ := by
      simp only [Matrix_mult, ha, hb]
      rw [if_neg (by omega)]
    refine ⟨_, hmult, rfl, rfl, ?_⟩
    intro i j e hi hj
    have hi2 : i < a.nrows := hi
    have hj2 : j < b.ncols := hj
    have hvals : ((new_Matrix a.nrows b.ncols).vals.map fun _ =>
        (List.range a.nrows).map fun i2 =>
          (List.range b.ncols).map fun j2 =>
            ((List.range a.ncols).map fun k => idx av i2 k * idx bv k j2).sum) =
        some ((List.range a.nrows).map fun i2 =>
          (List.range b.ncols).map fun j2 =>
            ((List.range a.ncols).map fun k => idx av i2 k * idx bv k j2).sum) := by
      rw [new_Matrix_vals_pos _ _ (by omega) (by omega)]
      rfl
    simp only [Matrix_get, hvals]
    rw [if_neg (by omega)]
    rw [idx_range_table _ hi2 hj2]
    congr 1
    apply congrArg List.sum
    apply List.map_congr_left
    intro k hk
    have hk2 : k < a.ncols := List.mem_range.mp hk
    simp only [ha, hb]
    rw [if_neg (by omega), if_neg (by omega)]

/-- Witness for matrix_mult_spec: [[1,2],[3,4]] times the 2x2 identity is
returned unchanged entry-wise, and the shipped constraint rejects the
product of two 2x3 matrices. -/
theorem matrix_mult_spec_witness :
    Matrix_mult (some ⟨2, 2, some [[1, 2], [3, 4]]⟩)
      (some ⟨2, 2, some [[1, 0], [0, 1]]⟩) = some ⟨2, 2, some [[1, 2], [3, 4]]⟩ ∧
    Matrix_mult (some ⟨2, 3, some [[1, 2, 3], [4, 5, 6]]⟩)
      (some ⟨2, 3, some [[1, 2, 3], [4, 5, 6]]⟩) = none :=
  ⟨by norm_num [Matrix_mult, new_Matrix, init_Matrix, idx, List.range_succ],
   (matrix_mult_spec _ _ _ _ [[1, 2, 3], [4, 5, 6]] [[1, 2, 3], [4, 5, 6]]
     rfl rfl rfl rfl).1.mpr (by decide)⟩

/-- C6: for a non-null matrix with backing storage of the recorded positive
extents, Matrix_l1 returns the sum of the absolute values of all stored
entries and Matrix_l2 returns the square root of the sum of their squares,
both leaving errno untouched; the witness evaluates both norms on
[[-1, 2], [3, -4]], giving 10 and sqrt 30. -/
theorem norm_values (a : Matrix) (av : List (List ℚ)) (e : Nat)
    (hv : a.vals = some av) (hlen : av.length = a.nrows)
    (hrows : ∀ row ∈ av, row.length = a.ncols)
    (hr : 0 < a.nrows) (hc : 0 < a.ncols) :
    Matrix_l1 (some a) e = ((av.map fun row => (row.map fun x => |x|).sum).sum, e) ∧
    Matrix_l2 (some a) e =
      (Real.sqrt (((av.map fun row => (row.map fun x => x ^ 2).sum).sum : ℚ) : ℝ), e) := by
  constructor
  · simp only [Matrix_l1, hv]
    rw [if_neg (by omega)]
    simp only [branch_abs]
    rw [double_range_sum av (fun x => |x|) a.nrows a.ncols hlen hrows]
  · have hsum : Matrix_l2sum a = (av.map fun row => (row.map fun x => x ^ 2).sum).sum := by
      unfold Matrix_l2sum
      rw [hv]
      simp only [Option.getD_some]
      exact double_range_sum av (fun x => x ^ 2) a.nrows a.ncols hlen hrows
    simp only [Matrix_l2, hsum]

/-- Witness for norm_values on [[-1, 2], [3, -4]]: the L1 norm is 10 and
the L2 norm is sqrt 30. -/
theorem norm_values_witness :
    Matrix_l1 (some ⟨2, 2, some [[-1, 2], [3, -4]]⟩) 0 = (10, 0) ∧
    Matrix_l2 (some ⟨2, 2, some [[-1, 2], [3, -4]]⟩) 0 = (Real.sqrt 30, 0) := by
  have h := norm_values ⟨2, 2, some [[-1, 2], [3, -4]]⟩ [[-1, 2], [3, -4]] 0 rfl rfl
    (by decide) (by decide) (by decide)
  constructor
  · rw [h.1]
    norm_num
  · rw [h.2]
    norm_num

/-- C7: error-handling asymmetry between the norms: on the no-storage
matrix built by a 0x0 construction, and on a null handle, Matrix_l1 sets
errno to EINVAL and returns 0.0, whereas Matrix_l2 returns 0.0 with errno
untouched; indeed Matrix_l2 never changes errno on any input, its only
guard being the null check on A itself. -/
theorem norm_error_asymmetry (e : Nat) :
    Matrix_l1 (some (new_Matrix 0 0)) e = (0, EINVAL) ∧
    Matrix_l2 (some (new_Matrix 0 0)) e = (0, e) ∧
    Matrix_l1 none e = (0, EINVAL) ∧
    Matrix_l2 none e = (0, e) ∧
    ∀ A : Option Matrix, (Matrix_l2 A e).2 = e := by
  refine ⟨?_, ?_, rfl, rfl, ?_⟩
  · simp [Matrix_l1, new_Matrix_vals_zero 0 0 (Or.inl rfl)]
  · have hz : Matrix_l2sum (new_Matrix 0 0) = 0 := by
      unfold Matrix_l2sum
      rw [new_Matrix_nrows]
      simp
    simp only [Matrix_l2, hz]
    norm_num
  · intro A
    cases A with
    | none => rfl
    | some a => rfl

/-- Witness for norm_error_asymmetry at errno 7. -/
theorem norm_error_asymmetry_witness :
    Matrix_l1 (some (new_Matrix 0 0)) 7 = (0, EINVAL) ∧
    Matrix_l2 (some (new_Matrix 0 0)) 7 = (0, 7) :=
  ⟨(norm_error_asymmetry 7).1, (norm_error_asymmetry 7).2.1⟩

end Linalg
